import Mathlib

/-!
# Verification of the PII detector/redactor core

Shallow embedding of `detector_ankur_singh.py`: the field classifiers
(`is_phone` … `is_name`), the field maskers (`mask_phone` … `mask_ip`), and the
redaction policy (`detect_standalone_pii`, `detect_combinatorial_pii`,
`redact_obj`).

Conventions of the embedding:
* A decoded JSON record is an association list from field name to value,
  mirroring a Python `dict` (insertion-ordered, keys unique in practice).
* Text values are `List Char`; `\d`, `[A-Z]`, whitespace and lowercasing are
  modelled over their ASCII meaning.
* The Python regexes are translated structurally; where a regex is used the
  translation is justified in a comment at the definition.
-/

namespace Detector

/-- A decoded JSON value as the detector sees it: text, a number, or null.
Classifiers test `isinstance(val, str)`, so only the text alternative can
match. -/
inductive Value where
  | vStr : List Char → Value
  | vNum : Int → Value
  | vNull : Value
deriving DecidableEq

/-- A decoded record: a Python dict as an insertion-ordered association list. -/
abbrev Record := List (String × Value)

/-- Python `k in js`. -/
def hasKey (js : Record) (k : String) : Bool :=
  js.any (fun kv => kv.1 == k)

/-- Python `js[k]` (first binding; Python dicts have unique keys). The default
is never reached at call sites, which are guarded by `hasKey`. -/
def getV (js : Record) (k : String) : Value :=
  (List.lookup k js).getD Value.vNull

/-- Python `d.update(u)`: keys already in `d` keep their position and take
`u`'s value; keys of `u` absent from `d` are appended in `u`'s order. -/
def updateDict (d u : Record) : Record :=
  d.map (fun kv =>
    match List.lookup kv.1 u with
    | some v => (kv.1, v)
    | none => kv)
  ++ u.filter (fun kv => !hasKey d kv.1)

/-- Python `str(x)` for the three value shapes. At every masker call site the
classifier has already ensured the value is text, so this is the identity
there. -/
def pyStr : Value → List Char
  | .vStr s => s
  | .vNum n => (toString n).toList
  | .vNull => "None".toList

/-- Split a character list at every separator satisfying `p`, keeping empty
segments (the semantics of Python `str.split(sep)` for a single-char `sep`). -/
def splitByP (p : Char → Bool) : List Char → List (List Char)
  | [] => [[]]
  | c :: tl =>
    let gs := splitByP p tl
    if p c then [] :: gs
    else
      match gs with
      | g :: rest => (c :: g) :: rest
      | [] => [[c]]

/-- Split at every occurrence of the character `sep`. -/
def splitChar (sep : Char) (cs : List Char) : List (List Char) :=
  splitByP (fun c => c == sep) cs

/-- Python `str.split()` with no argument: split on whitespace runs and drop
empty tokens. -/
def pySplit (cs : List Char) : List (List Char) :=
  (splitByP (fun c => c.isWhitespace) cs).filter (fun g => !g.isEmpty)

/-- Python `str.strip()`: remove leading and trailing whitespace. -/
def pyStrip (cs : List Char) : List Char :=
  ((cs.dropWhile Char.isWhitespace).reverse.dropWhile Char.isWhitespace).reverse

/-- `needle` occurs contiguously inside `hay`, starting at its head. -/
def startsWithSeq : List Char → List Char → Bool
  | [], _ => true
  | _ :: _, [] => false
  | a :: as2, b :: bs => a == b && startsWithSeq as2 bs

/-- `needle` occurs contiguously somewhere inside `hay` (Python `needle in
hay`). -/
def containsSeq (needle : List Char) : List Char → Bool
  | [] => needle.isEmpty
  | b :: tl => startsWithSeq needle (b :: tl) || containsSeq needle tl

/-- ASCII decimal digit, the model of regex `\d`: `'0' ≤ c ≤ '9'` (codes
48–57). -/
def isDig (c : Char) : Bool :=
  decide (48 ≤ c.toNat ∧ c.toNat ≤ 57)

/-- Numeric value of an ASCII digit. -/
def digitVal (c : Char) : Nat := c.toNat - 48

-- --------- Field classifiers (PII Detection Functions) ---------------

/-- `is_phone`: `re.fullmatch(r'\d{10}', val)` — exactly 10 digits. -/
def is_phone : Value → Bool
  | .vStr s => decide (s.length = 10) && s.all isDig
  | _ => false

/-- `is_aadhar`: `re.fullmatch(r'\d{12}', val)` — exactly 12 digits. -/
def is_aadhar : Value → Bool
  | .vStr s => decide (s.length = 12) && s.all isDig
  | _ => false

/-- `is_passport`: `re.fullmatch(r'[A-Z][0-9]{7}', val)` — one uppercase
letter (codes 65–90) followed by exactly 7 digits. -/
def is_passport : Value → Bool
  | .vStr (c :: tl) =>
    decide (65 ≤ c.toNat ∧ c.toNat ≤ 90) && decide (tl.length = 7) && tl.all isDig
  | _ => false

/-- `is_upi`: `'@' in val`. -/
def is_upi : Value → Bool
  | .vStr s => s.contains '@'
  | _ => false

/-- `is_email`: `re.fullmatch(r'[^@]+@[^@]+\.[^@]+', val)`.  The string must
contain exactly one `'@'` (every other position is `[^@]`), the part before it
must be nonempty, and the part after it must contain a `'.'` with at least one
character on each side, i.e. a dot strictly inside it. -/
def is_email : Value → Bool
  | .vStr s =>
    match splitChar '@' s with
    | [a, b] => !a.isEmpty && ((b.drop 1).dropLast.contains '.')
    | _ => false
  | _ => false

/-- `is_address`: a comma, or a digit, or one of the keywords inside the
lowercased text. -/
def is_address : Value → Bool
  | .vStr s =>
    s.contains ',' || s.any isDig ||
      (["road", "street", "avenue", "lane", "block", "sector"].any
        (fun w => containsSeq w.toList (s.map Char.toLower)))
  | _ => false

/-- One alternative of the octet group `25[0-5]`: `'2'` (50), `'5'` (53), then
a digit `'0'`–`'5'` (48–53). -/
def octetA : List Char → Bool
  | [a, b, c] =>
    decide (a.toNat = 50) && decide (b.toNat = 53) &&
      decide (48 ≤ c.toNat ∧ c.toNat ≤ 53)
  | _ => false

/-- Octet alternative `2[0-4]\d`: `'2'` (50), a digit `'0'`–`'4'` (48–52),
then any digit. -/
def octetB : List Char → Bool
  | [a, b, c] =>
    decide (a.toNat = 50) && decide (48 ≤ b.toNat ∧ b.toNat ≤ 52) && isDig c
  | _ => false

/-- Octet alternative `1\d\d`: `'1'` (49) then two digits. -/
def octetC : List Char → Bool
  | [a, b, c] => decide (a.toNat = 49) && isDig b && isDig c
  | _ => false

/-- Octet alternative `[1-9]?\d`: a single digit, or `'1'`–`'9'` (49–57)
followed by a digit. -/
def octetD : List Char → Bool
  | [c] => isDig c
  | [b, c] => decide (49 ≤ b.toNat ∧ b.toNat ≤ 57) && isDig c
  | _ => false

/-- The octet group `(25[0-5]|2[0-4]\d|1\d\d|[1-9]?\d)` matched against one
whole dot-free segment.  Matching the whole segment is forced in context: the
group can only consume digits and must be followed by `\.` or the end. -/
def isOctet (g : List Char) : Bool :=
  octetA g || octetB g || octetC g || octetD g

/-- The repetition `((octet)(\.|$)){n}` of `is_ip`'s regex, consumed against
`rest`.  `rest` is always a suffix of `val + '.'` and hence ends with `'.'`,
so the `$` alternative can never terminate a repetition early: each of the `n`
repetitions consumes one maximal dot-free segment (which must match the octet
group) and the dot after it, and `fullmatch` requires that nothing remains. -/
def ipGroups : Nat → List Char → Bool
  | 0, rest => rest.isEmpty
  | n + 1, rest =>
    let g := rest.takeWhile (fun c => c != '.')
    isOctet g &&
      match rest.drop g.length with
      | '.' :: tl => ipGroups n tl
      | _ => false

/-- `is_ip`: `re.fullmatch(r'((25[0-5]|2[0-4]\d|1\d\d|[1-9]?\d)(\.|$)){4}',
val + '.')` — the trailing-dot construction. -/
def is_ip : Value → Bool
  | .vStr s => ipGroups 4 (s ++ ['.'])
  | _ => false

/-- `is_device_id`: lowercase form starts with `dev`, `mob` or `tab`, or the
value has length at least 6. -/
def is_device_id : Value → Bool
  | .vStr s =>
    let low := s.map Char.toLower
    low.take 3 == "dev".toList || low.take 3 == "mob".toList ||
      low.take 3 == "tab".toList || decide (6 ≤ s.length)
  | _ => false

/-- `is_name`: `len(val.strip().split()) >= 2` — at least two whitespace
separated tokens. -/
def is_name : Value → Bool
  | .vStr s => decide (2 ≤ (pySplit (pyStrip s)).length)
  | _ => false

-- --------- Field maskers (Utility Masking Functions) ---------------

/-- `mask_phone`: `v[:2] + 'XXXXXX' + v[-2:]`.  On a list, `v[:2]` is
`take 2` and `v[-2:]` is `drop (length - 2)` (for short strings both give the
whole string, as in Python). -/
def mask_phone (v : List Char) : List Char :=
  v.take 2 ++ "XXXXXX".toList ++ v.drop (v.length - 2)

/-- `mask_aadhar`: `v[:2] + 'XXXXXXXX' + v[-2:]`. -/
def mask_aadhar (v : List Char) : List Char :=
  v.take 2 ++ "XXXXXXXX".toList ++ v.drop (v.length - 2)

/-- `mask_passport`: `v[0] + 'XXXXXXX' if len(v) == 8 else
'[REDACTED_PASSPORT]'`. -/
def mask_passport (v : List Char) : List Char :=
  if v.length = 8 then v.take 1 ++ "XXXXXXX".toList
  else "[REDACTED_PASSPORT]".toList

/-- Index of the last `'@'` in `cs` that still has a character after it
(`none` if there is no such `'@'`).  This is the `'@'` selected by the greedy
`(.)(?:.*)(@.+)` of `mask_upi` inside one newline-free segment. -/
def lastEligAux : List Char → Option Nat
  | [] => none
  | c :: tl =>
    match lastEligAux tl with
    | some j => some (j + 1)
    | none => if c == '@' && !tl.isEmpty then some 0 else none

/-- One newline-free segment of `mask_upi`'s `re.sub`.  A match needs a
character for `(.)`, then `(?:.*)` runs greedily to the last `'@'` that is
followed by at least one character, and `(@.+)` keeps everything from that
`'@'` on; the leftmost match therefore starts at the first character and
spans the whole segment, so at most one replacement happens per segment.  If
no `'@'` at position ≥ 1 has a successor, there is no match and the segment
is returned unchanged. -/
def maskUpiSeg (cs : List Char) : List Char :=
  match cs with
  | [] => []
  | c0 :: tl =>
    match lastEligAux tl with
    | some j => c0 :: 'X' :: 'X' :: 'X' :: tl.drop j
    | none => cs

/-- `mask_upi`: `re.sub(r'(.)(?:.*)(@.+)', lambda m: m.group(1) + 'XXX' +
m.group(2), str(upi))`.  Since `.` never matches a newline, matches cannot
cross newlines and each newline-delimited segment is rewritten
independently. -/
def mask_upi (v : List Char) : List Char :=
  List.intercalate ['\n'] ((splitChar '\n' v).map maskUpiSeg)

/-- `mask_email`: `re.match(r'^([^@]{2})([^@]*)(@.+)$', email)`, keeping
groups 1 and 3 around `'XXX'`, else the sentinel.  `[^@]{2}[^@]*` consumes
exactly the part before the first `'@'` (which must have length ≥ 2); `.+`
cannot contain a newline, and `$` also matches just before one single
trailing newline, which is then dropped from the kept group 3. -/
def mask_email (v : List Char) : List Char :=
  let a := v.takeWhile (fun c => c != '@')
  match v.drop a.length with
  | '@' :: d =>
    let core := if d.getLast? == some '\n' then d.dropLast else d
    if decide (2 ≤ a.length) && !core.isEmpty && !core.contains '\n' then
      a.take 2 ++ "XXX".toList ++ '@' :: core
    else "[REDACTED_EMAIL]".toList
  | _ => "[REDACTED_EMAIL]".toList

/-- `mask_name`: split on whitespace; a token of length > 1 becomes its first
character followed by `'XXX'`, a shorter token passes through; rejoin with
single spaces. -/
def mask_name (v : List Char) : List Char :=
  List.intercalate [' ']
    ((pySplit v).map (fun part =>
      if 2 ≤ part.length then part.take 1 ++ "XXX".toList else part))

/-- `mask_address`: fixed sentinel. -/
def mask_address (_ : List Char) : List Char := "[REDACTED_ADDRESS]".toList

/-- `mask_device_id`: fixed sentinel. -/
def mask_device_id (_ : List Char) : List Char := "[REDACTED_DEVICEID]".toList

/-- `mask_ip`: fixed sentinel. -/
def mask_ip (_ : List Char) : List Char := "[REDACTED_IP]".toList

-- ----------- Redaction policy (Main Row Processing) ------------------

/-- `detect_standalone_pii`: the four standalone categories, tested in order;
each match stores the masked value under its own key (assignments to fresh
distinct keys append in order) and raises the found flag. -/
def detect_standalone_pii (js : Record) : Bool × Record :=
  let cPhone := hasKey js "phone" && is_phone (getV js "phone")
  let cAadhar := hasKey js "aadhar" && is_aadhar (getV js "aadhar")
  let cPassport := hasKey js "passport" && is_passport (getV js "passport")
  let cUpi := hasKey js "upi_id" && is_upi (getV js "upi_id")
  let redacted : Record :=
    (if cPhone then [("phone", Value.vStr (mask_phone (pyStr (getV js "phone"))))] else [])
    ++ (if cAadhar then [("aadhar", Value.vStr (mask_aadhar (pyStr (getV js "aadhar"))))] else [])
    ++ (if cPassport then [("passport", Value.vStr (mask_passport (pyStr (getV js "passport"))))] else [])
    ++ (if cUpi then [("upi_id", Value.vStr (mask_upi (pyStr (getV js "upi_id"))))] else [])
  (cPhone || cAadhar || cPassport || cUpi, redacted)

/-- The candidate key list of `detect_combinatorial_pii`: the five
combinatorial fields that are present and match, in the source's order. -/
def comb_keys (js : Record) : List String :=
  (if hasKey js "name" && is_name (getV js "name") then ["name"] else [])
  ++ (if hasKey js "email" && is_email (getV js "email") then ["email"] else [])
  ++ (if hasKey js "address" && is_address (getV js "address") then ["address"] else [])
  ++ (if hasKey js "device_id" && is_device_id (getV js "device_id") then ["device_id"] else [])
  ++ (if hasKey js "ip_address" && is_ip (getV js "ip_address") then ["ip_address"] else [])

/-- The `if k == 'name': … elif …` chain of the combinatorial masking loop;
a key outside the five categories would simply produce no entry. -/
def combMaskEntry (js : Record) (k : String) : Option (String × Value) :=
  let v := pyStr (getV js k)
  if k == "name" then some (k, Value.vStr (mask_name v))
  else if k == "email" then some (k, Value.vStr (mask_email v))
  else if k == "address" then some (k, Value.vStr (mask_address v))
  else if k == "device_id" then some (k, Value.vStr (mask_device_id v))
  else if k == "ip_address" then some (k, Value.vStr (mask_ip v))
  else none

/-- `detect_combinatorial_pii`: if at least two candidates are present, mask
every one of them; otherwise report nothing. -/
def detect_combinatorial_pii (js : Record) : Bool × Record :=
  let keys := comb_keys js
  if 2 ≤ keys.length then (true, keys.filterMap (combMaskEntry js))
  else (false, [])

/-- `redact_obj` on an already-decoded record (`json.loads` belongs to the
CSV collaborator): copy the record, overlay the standalone pass, overlay the
combinatorial pass, and report whether either found anything. -/
def redact_obj (js : Record) : Record × Bool :=
  let output0 := js
  let st := detect_standalone_pii js
  let output1 := if st.1 then updateDict output0 st.2 else output0
  let isPii1 := if st.1 then true else false
  let comb := detect_combinatorial_pii js
  let output2 := if comb.1 then updateDict output1 comb.2 else output1
  let isPii2 := if comb.1 then true else isPii1
  (output2, isPii2)

-- ----------- Statement-support definitions ------------------

/-- The four standalone field names, in the order the source tests them. -/
def stNames : List String := ["phone", "aadhar", "passport", "upi_id"]

/-- The five combinatorial field names, in the order the source tests them. -/
def combNames : List String := ["name", "email", "address", "device_id", "ip_address"]

/-- All nine field names the detector ever examines. -/
def nineNames : List String := stNames ++ combNames

/-- The classifier attached to a standalone field name. -/
def stClassOf (k : String) : Value → Bool :=
  if k = "phone" then is_phone
  else if k = "aadhar" then is_aadhar
  else if k = "passport" then is_passport
  else is_upi

/-- The masker attached to a standalone field name. -/
def stMaskOf (k : String) : List Char → List Char :=
  if k = "phone" then mask_phone
  else if k = "aadhar" then mask_aadhar
  else if k = "passport" then mask_passport
  else mask_upi

/-- The classifier attached to a combinatorial field name. -/
def combClassOf (k : String) : Value → Bool :=
  if k = "name" then is_name
  else if k = "email" then is_email
  else if k = "address" then is_address
  else if k = "device_id" then is_device_id
  else is_ip

/-- The masker attached to a combinatorial field name. -/
def combMaskOf (k : String) : List Char → List Char :=
  if k = "name" then mask_name
  else if k = "email" then mask_email
  else if k = "address" then mask_address
  else if k = "device_id" then mask_device_id
  else mask_ip

/-- The classifier attached to any of the nine examined field names
(standalone or combinatorial). -/
def classOf (k : String) : Value → Bool :=
  if k ∈ stNames then stClassOf k else combClassOf k

/-- The masker attached to any of the nine examined field names. -/
def maskOf (k : String) : List Char → List Char :=
  if k ∈ stNames then stMaskOf k else combMaskOf k

/-- Keep only the entries whose key is one of the nine examined names. -/
def keepNine (kv : String × Value) : Bool := nineNames.contains kv.1

/-- Numeric value of a digit string, most significant digit first. -/
def digitsVal : List Char → Nat
  | [] => 0
  | c :: tl => digitVal c * 10 ^ tl.length + digitsVal tl

/-- Modelled from the spec: one dot-separated group of the ip_address rule as
the spec words it — "a non-empty integer 0–255 with no group empty": a
non-empty all-digit string whose value is at most 255. -/
def specOctet (g : List Char) : Bool :=
  !g.isEmpty && g.all isDig && decide (digitsVal g ≤ 255)

/-- Modelled from the spec: the ip_address classifier as the spec words it —
"text parses as exactly 4 dot-separated groups, each an integer 0–255 with no
group empty". -/
def specIsIp (s : List Char) : Bool :=
  decide ((splitChar '.' s).length = 4) && (splitChar '.' s).all specOctet

/-- A multi-character group must not begin with `'0'` (code 48). -/
def noLeadZero : List Char → Bool
  | c :: _ :: _ => decide (c.toNat ≠ 48)
  | _ => true

/-- A canonical octet: a non-empty all-digit string of value at most 255
with no redundant leading zero. -/
def canonOctet (g : List Char) : Bool := specOctet g && noLeadZero g

-- ----------- Association-list lemmas ------------------

theorem lookup_cons_self (k : String) (kv : String × Value) (tl : Record)
    (h : k = kv.1) : List.lookup k (kv :: tl) = some kv.2 := by
  obtain ⟨k1, v1⟩ := kv
  have hb : (k == k1) = true := beq_iff_eq.mpr h
  simp [List.lookup, hb]

theorem lookup_cons_ne (k : String) (kv : String × Value) (tl : Record)
    (h : k ≠ kv.1) : List.lookup k (kv :: tl) = List.lookup k tl := by
  obtain ⟨k1, v1⟩ := kv
  have hb : (k == k1) = false := beq_eq_false_iff_ne.mpr h
  simp [List.lookup, hb]

theorem lookup_append (k : String) (a b : Record) :
    List.lookup k (a ++ b) = (List.lookup k a).or (List.lookup k b) := by
  induction a with
  | nil => simp
  | cons kv tl ih =>
    by_cases h : k = kv.1
    · rw [List.cons_append, lookup_cons_self k kv _ h, lookup_cons_self k kv _ h]
      simp
    · rw [List.cons_append, lookup_cons_ne k kv _ h, lookup_cons_ne k kv _ h, ih]

theorem lookup_eq_none_of_ne (k : String) (l : Record)
    (h : ∀ kv ∈ l, kv.1 ≠ k) : List.lookup k l = none := by
  induction l with
  | nil => simp
  | cons kv tl ih =>
    have h1 : k ≠ kv.1 := fun hh => h kv (by simp) hh.symm
    rw [lookup_cons_ne k kv tl h1]
    exact ih (fun kv2 hm => h kv2 (by simp [hm]))

theorem lookup_isSome_of_mem (kv : String × Value) (l : Record)
    (h : kv ∈ l) : List.lookup kv.1 l ≠ none := by
  induction l with
  | nil => simp at h
  | cons kv2 tl ih =>
    by_cases he : kv.1 = kv2.1
    · rw [lookup_cons_self _ kv2 tl he]; simp
    · rcases List.mem_cons.mp h with h1 | h1
      · exact absurd (congrArg Prod.fst h1) he
      · rw [lookup_cons_ne _ kv2 tl he]; exact ih h1

theorem hasKey_iff_lookup (js : Record) (k : String) :
    hasKey js k = true ↔ ∃ v, List.lookup k js = some v := by
  induction js with
  | nil => simp [hasKey]
  | cons kv tl ih =>
    by_cases h : k = kv.1
    · rw [lookup_cons_self k kv tl h]
      simp [hasKey, h.symm]
    · rw [lookup_cons_ne k kv tl h]
      have h2 : ¬ kv.1 = k := fun hh => h hh.symm
      simp only [hasKey, List.any_cons, beq_eq_false_iff_ne.mpr h2,
        Bool.false_or] at ih ⊢
      exact ih

/-- The map part of `updateDict` rewrites the value found at `k` and nothing
else, as seen through `lookup`. -/
theorem lookup_map_update (d u : Record) (k : String) :
    List.lookup k (d.map (fun kv =>
      match List.lookup kv.1 u with
      | some v => (kv.1, v)
      | none => kv)) =
    (List.lookup k d).map (fun v => (List.lookup k u).getD v) := by
  induction d with
  | nil => simp
  | cons kv tl ih =>
    simp only [List.map_cons]
    by_cases h : k = kv.1
    · subst h
      cases hu : List.lookup kv.1 u with
      | none =>
        rw [lookup_cons_self _ kv _ rfl, lookup_cons_self _ kv tl rfl]
        simp [hu]
      | some v =>
        rw [lookup_cons_self _ (kv.1, v) _ rfl, lookup_cons_self _ kv tl rfl]
        simp [hu]
    · have hmk : List.lookup k ((match List.lookup kv.1 u with
          | some v => (kv.1, v)
          | none => kv) :: tl.map (fun kv =>
            match List.lookup kv.1 u with
            | some v => (kv.1, v)
            | none => kv)) = List.lookup k (tl.map (fun kv =>
            match List.lookup kv.1 u with
            | some v => (kv.1, v)
            | none => kv)) := by
        apply lookup_cons_ne
        cases hu : List.lookup kv.1 u <;> simp [hu, h]
      rw [hmk, lookup_cons_ne k kv tl h, ih]

theorem lookup_updateDict_none (d u : Record) (k : String)
    (h : List.lookup k u = none) :
    List.lookup k (updateDict d u) = List.lookup k d := by
  unfold updateDict
  rw [lookup_append]
  have hfil : List.lookup k (u.filter (fun kv => !hasKey d kv.1)) = none := by
    apply lookup_eq_none_of_ne
    intro kv hm hk
    have hmem : kv ∈ u := List.mem_of_mem_filter hm
    subst hk
    exact lookup_isSome_of_mem kv u hmem h
  rw [hfil, lookup_map_update d u k, h]
  cases List.lookup k d <;> simp

theorem lookup_updateDict_some (d u : Record) (k : String) (v : Value)
    (h : List.lookup k u = some v) (hd : hasKey d k = true) :
    List.lookup k (updateDict d u) = some v := by
  unfold updateDict
  rw [lookup_append, lookup_map_update d u k, h]
  rcases (hasKey_iff_lookup d k).mp hd with ⟨w, hw⟩
  rw [hw]
  simp

theorem updateDict_keys (d u : Record)
    (h : ∀ kv ∈ u, hasKey d kv.1 = true) :
    (updateDict d u).map Prod.fst = d.map Prod.fst := by
  unfold updateDict
  have hfil : u.filter (fun kv => !hasKey d kv.1) = [] := by
    apply List.filter_eq_nil_iff.mpr
    intro kv hm
    simp [h kv hm]
  rw [hfil, List.append_nil, List.map_map]
  apply List.map_congr_left
  intro kv _
  cases hu : List.lookup kv.1 u <;> simp [hu]

theorem bool_eq_of_iff {a b : Bool} (h : a = true ↔ b = true) : a = b := by
  cases a <;> cases b <;> simp_all

theorem hasKey_iff_mem (d : Record) (k : String) :
    hasKey d k = true ↔ k ∈ d.map Prod.fst := by
  simp [hasKey, List.any_eq_true, beq_iff_eq, List.mem_map]

theorem hasKey_congr (d e : Record) (k : String)
    (h : d.map Prod.fst = e.map Prod.fst) : hasKey d k = hasKey e k := by
  apply bool_eq_of_iff
  rw [hasKey_iff_mem, hasKey_iff_mem, h]

-- ----------- Lemmas about the two detection passes ------------------

theorem lookup_if_singleton_ne (k k1 : String) (v : Value) (c : Bool)
    (h : k ≠ k1) :
    List.lookup k (if c then [(k1, v)] else []) = none := by
  cases c <;> simp [lookup_cons_ne k (k1, v) [] h]

theorem lookup_if_singleton_eq (k1 : String) (v : Value) (c : Bool) :
    List.lookup k1 (if c then [(k1, v)] else []) =
      (if c then some v else none) := by
  cases c <;> simp [lookup_cons_self k1 (k1, v) [] rfl]

/-- What the standalone pass stores under each of its four keys. -/
theorem st_lookup (js : Record) (k : String) (hk : k ∈ stNames) :
    List.lookup k (detect_standalone_pii js).2 =
      (if hasKey js k && stClassOf k (getV js k)
       then some (Value.vStr (stMaskOf k (pyStr (getV js k))))
       else none) := by
  simp only [stNames, List.mem_cons, List.mem_singleton, List.not_mem_nil] at hk
  rcases hk with rfl | rfl | rfl | rfl | h
  · simp only [detect_standalone_pii, lookup_append]
    rw [lookup_if_singleton_eq "phone" _ _,
      lookup_if_singleton_ne "phone" "aadhar" _ _ (by decide),
      lookup_if_singleton_ne "phone" "passport" _ _ (by decide),
      lookup_if_singleton_ne "phone" "upi_id" _ _ (by decide)]
    have h2 : stClassOf "phone" = is_phone := rfl
    have h3 : stMaskOf "phone" = mask_phone := rfl
    rw [h2, h3]
    cases hasKey js "phone" && is_phone (getV js "phone") <;> simp
  · simp only [detect_standalone_pii, lookup_append]
    rw [lookup_if_singleton_eq "aadhar" _ _,
      lookup_if_singleton_ne "aadhar" "phone" _ _ (by decide),
      lookup_if_singleton_ne "aadhar" "passport" _ _ (by decide),
      lookup_if_singleton_ne "aadhar" "upi_id" _ _ (by decide)]
    have h2 : stClassOf "aadhar" = is_aadhar := rfl
    have h3 : stMaskOf "aadhar" = mask_aadhar := rfl
    rw [h2, h3]
    cases hasKey js "aadhar" && is_aadhar (getV js "aadhar") <;> simp
  · simp only [detect_standalone_pii, lookup_append]
    rw [lookup_if_singleton_eq "passport" _ _,
      lookup_if_singleton_ne "passport" "phone" _ _ (by decide),
      lookup_if_singleton_ne "passport" "aadhar" _ _ (by decide),
      lookup_if_singleton_ne "passport" "upi_id" _ _ (by decide)]
    have h2 : stClassOf "passport" = is_passport := rfl
    have h3 : stMaskOf "passport" = mask_passport := rfl
    rw [h2, h3]
    cases hasKey js "passport" && is_passport (getV js "passport") <;> simp
  · simp only [detect_standalone_pii, lookup_append]
    rw [lookup_if_singleton_eq "upi_id" _ _,
      lookup_if_singleton_ne "upi_id" "phone" _ _ (by decide),
      lookup_if_singleton_ne "upi_id" "aadhar" _ _ (by decide),
      lookup_if_singleton_ne "upi_id" "passport" _ _ (by decide)]
    have h2 : stClassOf "upi_id" = is_upi := rfl
    have h3 : stMaskOf "upi_id" = mask_upi := rfl
    rw [h2, h3]
    cases hasKey js "upi_id" && is_upi (getV js "upi_id") <;> simp
  · exact absurd h (by simp)

/-- Keys outside the four standalone names never appear in the standalone
pass's output. -/
theorem st_lookup_none (js : Record) (k : String) (hk : k ∉ stNames) :
    List.lookup k (detect_standalone_pii js).2 = none := by
  simp only [stNames, List.mem_cons, List.mem_singleton, List.not_mem_nil] at hk
  push_neg at hk
  simp only [detect_standalone_pii, lookup_append]
  rw [lookup_if_singleton_ne k "phone" _ _ hk.1,
    lookup_if_singleton_ne k "aadhar" _ _ hk.2.1,
    lookup_if_singleton_ne k "passport" _ _ hk.2.2.1,
    lookup_if_singleton_ne k "upi_id" _ _ hk.2.2.2.1]
  simp

theorem mem_if_singleton (kv e : String × Value) (c : Bool)
    (hm : kv ∈ (if c then [e] else [])) : kv = e ∧ c = true := by
  cases c
  · simp at hm
  · simp at hm
    exact ⟨hm, rfl⟩

/-- Every entry the standalone pass produces sits under one of the four
standalone names, which is present in the record. -/
theorem st_mem (js : Record) (kv : String × Value)
    (hm : kv ∈ (detect_standalone_pii js).2) :
    kv.1 ∈ stNames ∧ hasKey js kv.1 = true := by
  simp only [detect_standalone_pii, List.mem_append, or_assoc] at hm
  rcases hm with hm | hm | hm | hm <;>
    obtain ⟨rfl, hc⟩ := mem_if_singleton _ _ _ hm <;>
    rw [Bool.and_eq_true] at hc <;>
    exact ⟨by simp [stNames], hc.1⟩

/-- The found flag of the standalone pass, written out. -/
theorem st_fst (js : Record) :
    (detect_standalone_pii js).1 =
      ((hasKey js "phone" && is_phone (getV js "phone"))
        || (hasKey js "aadhar" && is_aadhar (getV js "aadhar"))
        || (hasKey js "passport" && is_passport (getV js "passport"))
        || (hasKey js "upi_id" && is_upi (getV js "upi_id"))) := rfl

/-- Every candidate key of the combinatorial pass is one of the five
combinatorial names, is present, and matches its classifier. -/
theorem mem_if_singleton_str (k e : String) (c : Bool)
    (hm : k ∈ (if c then [e] else [])) : k = e ∧ c = true := by
  cases c
  · simp at hm
  · simp at hm
    exact ⟨hm, rfl⟩

theorem comb_keys_mem (js : Record) (k : String) (hk : k ∈ comb_keys js) :
    k ∈ combNames ∧ (hasKey js k && combClassOf k (getV js k)) = true := by
  simp only [comb_keys, List.mem_append, or_assoc] at hk
  rcases hk with hk | hk | hk | hk | hk
  · obtain ⟨rfl, hc⟩ := mem_if_singleton_str _ _ _ hk
    exact ⟨by simp [combNames], by rw [show combClassOf "name" = is_name from rfl]; exact hc⟩
  · obtain ⟨rfl, hc⟩ := mem_if_singleton_str _ _ _ hk
    exact ⟨by simp [combNames], by rw [show combClassOf "email" = is_email from rfl]; exact hc⟩
  · obtain ⟨rfl, hc⟩ := mem_if_singleton_str _ _ _ hk
    exact ⟨by simp [combNames], by rw [show combClassOf "address" = is_address from rfl]; exact hc⟩
  · obtain ⟨rfl, hc⟩ := mem_if_singleton_str _ _ _ hk
    exact ⟨by simp [combNames], by rw [show combClassOf "device_id" = is_device_id from rfl]; exact hc⟩
  · obtain ⟨rfl, hc⟩ := mem_if_singleton_str _ _ _ hk
    exact ⟨by simp [combNames], by rw [show combClassOf "ip_address" = is_ip from rfl]; exact hc⟩

/-- The `elif` chain maps each combinatorial name to its masker's output. -/
theorem combMaskEntry_eq (js : Record) (k : String) (hk : k ∈ combNames) :
    combMaskEntry js k = some (k, Value.vStr (combMaskOf k (pyStr (getV js k)))) := by
  simp only [combNames, List.mem_cons, List.mem_singleton, List.not_mem_nil] at hk
  rcases hk with rfl | rfl | rfl | rfl | rfl | h
  · rfl
  · rfl
  · rfl
  · rfl
  · rfl
  · exact absurd h (by simp)

theorem combMaskEntry_fst (js : Record) (k : String) (kv : String × Value)
    (h : combMaskEntry js k = some kv) : kv.1 = k := by
  unfold combMaskEntry at h
  split_ifs at h <;> simp at h <;> simp [← h]

/-- Looking up a candidate key in the combinatorial pass's masked list. -/
theorem lookup_filterMap_comb (js : Record) (keys : List String) (k : String)
    (hk : k ∈ keys) (hall : ∀ k2 ∈ keys, k2 ∈ combNames) :
    List.lookup k (keys.filterMap (combMaskEntry js)) =
      some (Value.vStr (combMaskOf k (pyStr (getV js k)))) := by
  induction keys with
  | nil => simp at hk
  | cons k0 tl ih =>
    simp only [List.filterMap_cons, combMaskEntry_eq js k0 (hall k0 (by simp))]
    by_cases he : k = k0
    · subst he
      exact lookup_cons_self _ _ _ rfl
    · rw [lookup_cons_ne _ _ _ (by simpa using he)]
      have hk2 : k ∈ tl := by
        rcases List.mem_cons.mp hk with h | h
        · exact absurd h he
        · exact h
      exact ih hk2 (fun k2 hm => hall k2 (by simp [hm]))

/-- Every entry of the combinatorial pass sits under a combinatorial name
present in the record. -/
theorem comb_mem (js : Record) (kv : String × Value)
    (hm : kv ∈ (detect_combinatorial_pii js).2) :
    kv.1 ∈ combNames ∧ hasKey js kv.1 = true := by
  simp only [detect_combinatorial_pii] at hm
  split at hm
  · simp only [List.mem_filterMap] at hm
    rcases hm with ⟨k2, hk2, he⟩
    have hf := combMaskEntry_fst js k2 kv he
    have hc := comb_keys_mem js k2 hk2
    have hc2 := hc.2
    rw [Bool.and_eq_true] at hc2
    rw [hf]
    exact ⟨hc.1, hc2.1⟩
  · simp at hm

/-- Keys outside the five combinatorial names never appear in the
combinatorial pass's output. -/
theorem comb_lookup_none (js : Record) (k : String) (hk : k ∉ combNames) :
    List.lookup k (detect_combinatorial_pii js).2 = none := by
  apply lookup_eq_none_of_ne
  intro kv hm he
  exact hk (he ▸ (comb_mem js kv hm).1)

-- ----------- Lemmas about the redaction policy ------------------

/-- The found flag returned by `redact_obj` is the disjunction of the two
passes' flags. -/
theorem redact_snd (js : Record) :
    (redact_obj js).2 =
      ((detect_standalone_pii js).1 || (detect_combinatorial_pii js).1) := by
  simp only [redact_obj]
  cases h1 : (detect_standalone_pii js).1 <;>
    cases h2 : (detect_combinatorial_pii js).1 <;> simp [h1, h2]

theorem keys_after_update (d u : Record) (c : Bool)
    (h : ∀ kv ∈ u, hasKey d kv.1 = true) :
    (if c then updateDict d u else d).map Prod.fst = d.map Prod.fst := by
  cases c
  · simp
  · simp [updateDict_keys d u h]

/-- The masked record always carries exactly the input's key list. -/
theorem redact_keys (js : Record) :
    (redact_obj js).1.map Prod.fst = js.map Prod.fst := by
  simp only [redact_obj]
  have h1 := keys_after_update js (detect_standalone_pii js).2
    (detect_standalone_pii js).1 (fun kv hm => (st_mem js kv hm).2)
  have h2 := keys_after_update
    (if (detect_standalone_pii js).1 then updateDict js (detect_standalone_pii js).2 else js)
    (detect_combinatorial_pii js).2 (detect_combinatorial_pii js).1
    (fun kv hm => by
      rw [hasKey_congr _ js _ h1]
      exact (comb_mem js kv hm).2)
  rw [h2, h1]

/-- Fields touched by neither pass read back unchanged from the output. -/
theorem redact_lookup_unchanged (js : Record) (k : String)
    (h1 : List.lookup k (detect_standalone_pii js).2 = none)
    (h2 : List.lookup k (detect_combinatorial_pii js).2 = none) :
    List.lookup k (redact_obj js).1 = List.lookup k js := by
  simp only [redact_obj]
  have step1 : List.lookup k
      (if (detect_standalone_pii js).1 then updateDict js (detect_standalone_pii js).2 else js)
      = List.lookup k js := by
    split
    · exact lookup_updateDict_none _ _ _ h1
    · rfl
  split
  · rw [lookup_updateDict_none _ _ _ h2, step1]
  · exact step1

theorem comb_snd_of_flag (js : Record)
    (h : (detect_combinatorial_pii js).1 = false) :
    (detect_combinatorial_pii js).2 = [] := by
  simp only [detect_combinatorial_pii] at h ⊢
  split at h
  · simp at h
  · split
    · simp_all
    · rfl

/-- A field the standalone pass masked reads back as the masked value. -/
theorem redact_lookup_st_core (js : Record) (k : String) (m : Value)
    (hflag : (detect_standalone_pii js).1 = true)
    (hstl : List.lookup k (detect_standalone_pii js).2 = some m)
    (hcomb : List.lookup k (detect_combinatorial_pii js).2 = none)
    (hhk : hasKey js k = true) :
    List.lookup k (redact_obj js).1 = some m := by
  simp only [redact_obj, hflag, if_true]
  split
  · rw [lookup_updateDict_none _ _ _ hcomb]
    exact lookup_updateDict_some _ _ _ _ hstl hhk
  · exact lookup_updateDict_some _ _ _ _ hstl hhk

/-- A field the combinatorial pass masked reads back as the masked value. -/
theorem redact_lookup_comb_core (js : Record) (k : String) (m : Value)
    (hcombl : List.lookup k (detect_combinatorial_pii js).2 = some m)
    (hhk : hasKey js k = true) :
    List.lookup k (redact_obj js).1 = some m := by
  simp only [redact_obj]
  split
  · apply lookup_updateDict_some _ _ _ _ hcombl
    rw [hasKey_congr _ js _ (keys_after_update js (detect_standalone_pii js).2
      (detect_standalone_pii js).1 (fun kv hm => (st_mem js kv hm).2))]
    exact hhk
  · rename_i hflag
    rw [comb_snd_of_flag js (by simpa using hflag)] at hcombl
    simp at hcombl

/-- A present, matching standalone field is overwritten with its masked value
and raises the found flag, whatever else the record contains. -/
theorem redact_st_masked (js : Record) (k : String) (hk : k ∈ stNames)
    (hc : (hasKey js k && stClassOf k (getV js k)) = true) :
    List.lookup k (redact_obj js).1 =
        some (Value.vStr (stMaskOf k (pyStr (getV js k)))) ∧
      (redact_obj js).2 = true := by
  have hhk : hasKey js k = true := by
    rw [Bool.and_eq_true] at hc
    exact hc.1
  have hstl : List.lookup k (detect_standalone_pii js).2 =
      some (Value.vStr (stMaskOf k (pyStr (getV js k)))) := by
    rw [st_lookup js k hk, if_pos hc]
  have hflag : (detect_standalone_pii js).1 = true := by
    rw [st_fst]
    simp only [stNames, List.mem_cons, List.mem_singleton, List.not_mem_nil] at hk
    rcases hk with rfl | rfl | rfl | rfl | h
    · rw [show stClassOf "phone" = is_phone from rfl] at hc
      simp [hc]
    · rw [show stClassOf "aadhar" = is_aadhar from rfl] at hc
      simp [hc]
    · rw [show stClassOf "passport" = is_passport from rfl] at hc
      simp [hc]
    · rw [show stClassOf "upi_id" = is_upi from rfl] at hc
      simp [hc]
    · exact absurd h (by simp)
  have hcomb : List.lookup k (detect_combinatorial_pii js).2 = none := by
    apply comb_lookup_none
    simp only [stNames, List.mem_cons, List.mem_singleton, List.not_mem_nil] at hk
    rcases hk with rfl | rfl | rfl | rfl | h
    · decide
    · decide
    · decide
    · decide
    · exact absurd h (by simp)
  refine ⟨redact_lookup_st_core js k _ hflag hstl hcomb hhk, ?_⟩
  rw [redact_snd, hflag]
  simp

theorem comb_fst_iff (js : Record) :
    (detect_combinatorial_pii js).1 = true ↔ 2 ≤ (comb_keys js).length := by
  simp only [detect_combinatorial_pii]
  split
  · simp_all
  · simp_all

theorem comb_eq_of_lt (js : Record) (h : (comb_keys js).length < 2) :
    detect_combinatorial_pii js = (false, []) := by
  simp only [detect_combinatorial_pii]
  rw [if_neg (by omega)]

/-- When two or more combinatorial candidates exist, every candidate field is
overwritten with its masked value and the found flag is raised. -/
theorem redact_comb_masked (js : Record) (k : String) (hk : k ∈ comb_keys js)
    (hlen : 2 ≤ (comb_keys js).length) :
    List.lookup k (redact_obj js).1 =
        some (Value.vStr (combMaskOf k (pyStr (getV js k)))) ∧
      (redact_obj js).2 = true := by
  have hflag : (detect_combinatorial_pii js).1 = true := (comb_fst_iff js).mpr hlen
  have hsnd : (detect_combinatorial_pii js).2 =
      (comb_keys js).filterMap (combMaskEntry js) := by
    simp only [detect_combinatorial_pii]
    rw [if_pos hlen]
  have hcombl : List.lookup k (detect_combinatorial_pii js).2 =
      some (Value.vStr (combMaskOf k (pyStr (getV js k)))) := by
    rw [hsnd]
    exact lookup_filterMap_comb js _ k hk (fun k2 hm => (comb_keys_mem js k2 hm).1)
  have hhk : hasKey js k = true := by
    have hc := (comb_keys_mem js k hk).2
    rw [Bool.and_eq_true] at hc
    exact hc.1
  refine ⟨redact_lookup_comb_core js k _ hcombl hhk, ?_⟩
  rw [redact_snd, hflag]
  simp

-- ----------- Only the nine named fields influence the result ------------------

theorem hasKey_filter (p : String × Value → Bool) (js : Record) (k : String)
    (hp : ∀ kv : String × Value, kv.1 = k → p kv = true) :
    hasKey (js.filter p) k = hasKey js k := by
  induction js with
  | nil => simp [hasKey]
  | cons kv tl ih =>
    by_cases he : kv.1 = k
    · rw [List.filter_cons_of_pos (hp kv he)]
      simp [hasKey, he, ih]
    · cases hpkv : p kv
      · rw [List.filter_cons_of_neg (by simp [hpkv])]
        rw [ih]
        simp [hasKey, beq_eq_false_iff_ne.mpr he]
      · rw [List.filter_cons_of_pos hpkv]
        have ih2 := ih
        simp only [hasKey, List.any_cons] at ih2 ⊢
        rw [ih2]

theorem lookup_filter (p : String × Value → Bool) (js : Record) (k : String)
    (hp : ∀ kv : String × Value, kv.1 = k → p kv = true) :
    List.lookup k (js.filter p) = List.lookup k js := by
  induction js with
  | nil => simp
  | cons kv tl ih =>
    by_cases he : k = kv.1
    · rw [List.filter_cons_of_pos (hp kv he.symm),
        lookup_cons_self _ _ _ he, lookup_cons_self _ _ _ he]
    · cases hpkv : p kv
      · rw [List.filter_cons_of_neg (by simp [hpkv]), ih, lookup_cons_ne _ _ _ he]
      · rw [List.filter_cons_of_pos hpkv, lookup_cons_ne _ _ _ he,
          lookup_cons_ne _ _ _ he]
        exact ih

theorem getV_filter_nine (js : Record) (k : String) (hk : k ∈ nineNames) :
    getV (js.filter keepNine) k = getV js k := by
  unfold getV
  rw [lookup_filter _ _ _ (fun kv hh => by
    simp only [keepNine, hh]
    simpa using hk)]

theorem hasKey_filter_nine (js : Record) (k : String) (hk : k ∈ nineNames) :
    hasKey (js.filter keepNine) k = hasKey js k := by
  apply hasKey_filter
  intro kv hh
  simp only [keepNine, hh]
  simpa using hk

theorem detect_st_filter_nine (js : Record) :
    detect_standalone_pii (js.filter keepNine) = detect_standalone_pii js := by
  have h1 := hasKey_filter_nine js "phone" (by decide)
  have h2 := getV_filter_nine js "phone" (by decide)
  have h3 := hasKey_filter_nine js "aadhar" (by decide)
  have h4 := getV_filter_nine js "aadhar" (by decide)
  have h5 := hasKey_filter_nine js "passport" (by decide)
  have h6 := getV_filter_nine js "passport" (by decide)
  have h7 := hasKey_filter_nine js "upi_id" (by decide)
  have h8 := getV_filter_nine js "upi_id" (by decide)
  simp only [detect_standalone_pii, h1, h2, h3, h4, h5, h6, h7, h8]

theorem comb_keys_filter_nine (js : Record) :
    comb_keys (js.filter keepNine) = comb_keys js := by
  have h1 := hasKey_filter_nine js "name" (by decide)
  have h2 := getV_filter_nine js "name" (by decide)
  have h3 := hasKey_filter_nine js "email" (by decide)
  have h4 := getV_filter_nine js "email" (by decide)
  have h5 := hasKey_filter_nine js "address" (by decide)
  have h6 := getV_filter_nine js "address" (by decide)
  have h7 := hasKey_filter_nine js "device_id" (by decide)
  have h8 := getV_filter_nine js "device_id" (by decide)
  have h9 := hasKey_filter_nine js "ip_address" (by decide)
  have h10 := getV_filter_nine js "ip_address" (by decide)
  simp only [comb_keys, h1, h2, h3, h4, h5, h6, h7, h8, h9, h10]

/-- The found flag is a function of the nine examined fields alone. -/
theorem redact_snd_filter_nine (js : Record) :
    (redact_obj (js.filter keepNine)).2 = (redact_obj js).2 := by
  rw [redact_snd, redact_snd, detect_st_filter_nine]
  have hcomb : (detect_combinatorial_pii (js.filter keepNine)).1 =
      (detect_combinatorial_pii js).1 := by
    apply bool_eq_of_iff
    rw [comb_fst_iff, comb_fst_iff, comb_keys_filter_nine]
  rw [hcomb]

-- ----------- Lemmas about mask_upi ------------------

theorem drop_len_append (a r : List Char) : (a ++ r).drop a.length = r := by
  induction a with
  | nil => rfl
  | cons c a2 ih => simp [ih]

theorem splitByP_of_all_not (p : Char → Bool) (s : List Char)
    (h : ∀ c ∈ s, p c = false) : splitByP p s = [s] := by
  induction s with
  | nil => rfl
  | cons c tl ih =>
    have hc : p c = false := h c (by simp)
    have ih2 := ih (fun c2 hm => h c2 (by simp [hm]))
    simp [splitByP, hc, ih2]

theorem intercalate_single (sep x : List Char) :
    List.intercalate sep [x] = x := by
  simp [List.intercalate]

/-- On newline-free input, the `re.sub` of `mask_upi` acts as on a single
segment. -/
theorem mask_upi_no_newline (cs : List Char) (h : '\n' ∉ cs) :
    mask_upi cs = maskUpiSeg cs := by
  have hall : ∀ c ∈ cs, (c == '\n') = false := by
    intro c hm
    apply beq_eq_false_iff_ne.mpr
    intro hh
    subst hh
    exact h hm
  unfold mask_upi splitChar
  rw [splitByP_of_all_not _ _ hall]
  simp [intercalate_single]

theorem lastEligAux_cons (c : Char) (tl : List Char) :
    lastEligAux (c :: tl) =
      (match lastEligAux tl with
       | some j => some (j + 1)
       | none => if c == '@' && !tl.isEmpty then some 0 else none) := rfl

/-- If no `'@'` sits strictly before the last position, there is no eligible
`'@'`. -/
theorem lastEligAux_none (b : List Char) (h : '@' ∉ b.dropLast) :
    lastEligAux b = none := by
  induction b with
  | nil => rfl
  | cons c tl ih =>
    cases tl with
    | nil => simp [lastEligAux]
    | cons d tl2 =>
      rw [show (c :: d :: tl2).dropLast = c :: (d :: tl2).dropLast from rfl] at h
      simp only [List.mem_cons, not_or] at h
      have ihne := ih h.2
      rw [lastEligAux_cons, ihne]
      have hb : (c == '@') = false :=
        beq_eq_false_iff_ne.mpr (fun hh => h.1 (hh.symm))
      simp [hb]

theorem lastEligAux_head (b : List Char) (hb : b ≠ [])
    (h : lastEligAux b = none) : lastEligAux ('@' :: b) = some 0 := by
  rw [lastEligAux_cons, h]
  simp [hb]

theorem lastEligAux_append (a r : List Char) (j : Nat)
    (h : lastEligAux r = some j) :
    lastEligAux (a ++ r) = some (a.length + j) := by
  induction a with
  | nil => simpa using h
  | cons c a2 ih =>
    rw [List.cons_append, lastEligAux_cons, ih]
    have h2 : (c :: a2).length + j = a2.length + j + 1 := by
      simp only [List.length_cons]
      omega
    rw [h2]

/-- The rewrite performed by `mask_upi` inside one newline-free segment, when
an eligible `'@'` exists: writing the tail as `a ++ '@' :: b` with `b`
nonempty and no earlier-than-last `'@'` inside `b`, the kept part starts at
that `'@'`. -/
theorem maskUpiSeg_eq (c0 : Char) (a b : List Char) (hb : b ≠ [])
    (hnb : '@' ∉ b.dropLast) :
    maskUpiSeg (c0 :: (a ++ '@' :: b)) = c0 :: 'X' :: 'X' :: 'X' :: '@' :: b := by
  have h0 : lastEligAux ('@' :: b) = some 0 :=
    lastEligAux_head b hb (lastEligAux_none b hnb)
  have h1 := lastEligAux_append a ('@' :: b) 0 h0
  rw [Nat.add_zero] at h1
  simp only [maskUpiSeg, h1]
  rw [drop_len_append a ('@' :: b)]

theorem maskUpiSeg_cons (c0 : Char) (tl : List Char) :
    maskUpiSeg (c0 :: tl) =
      (match lastEligAux tl with
       | some j => c0 :: 'X' :: 'X' :: 'X' :: tl.drop j
       | none => c0 :: tl) := rfl

/-- Without an eligible `'@'` the segment is returned unchanged. -/
theorem maskUpiSeg_id (cs : List Char) (h : '@' ∉ (cs.drop 1).dropLast) :
    maskUpiSeg cs = cs := by
  cases cs with
  | nil => rfl
  | cons c0 tl =>
    have h2 : lastEligAux tl = none := lastEligAux_none tl (by simpa using h)
    simp [maskUpiSeg, h2]

-- ----------- Lemmas about the ip_address classifier ------------------

/-- The regex octet group accepts exactly the canonical decimal forms of
0–255: no empty group, digits only, value at most 255, no redundant leading
zero. -/
theorem isOctet_canon (g : List Char) : isOctet g = canonOctet g := by
  apply bool_eq_of_iff
  rcases g with _ | ⟨a, _ | ⟨b, _ | ⟨c, _ | ⟨d, rest⟩⟩⟩⟩
  · simp [isOctet, canonOctet, specOctet,
      show octetA [] = false from rfl, show octetB [] = false from rfl,
      show octetC [] = false from rfl, show octetD [] = false from rfl]
  · simp only [isOctet,
      show octetA [a] = false from rfl, show octetB [a] = false from rfl,
      show octetC [a] = false from rfl, show octetD [a] = isDig a from rfl,
      canonOctet, specOctet, noLeadZero,
      show noLeadZero [a] = true from rfl,
      digitsVal, digitVal, isDig,
      Bool.false_or, Bool.or_false, Bool.and_eq_true, Bool.and_true,
      List.all_cons, List.all_nil, List.isEmpty_cons, Bool.not_false,
      Bool.true_and, decide_eq_true_iff]
    simp only [List.length_nil, pow_zero, mul_one, Nat.add_zero]
    generalize a.toNat = x
    omega
  · simp only [isOctet,
      show octetA [a, b] = false from rfl, show octetB [a, b] = false from rfl,
      show octetC [a, b] = false from rfl,
      show octetD [a, b] = (decide (49 ≤ a.toNat ∧ a.toNat ≤ 57) && isDig b) from rfl,
      canonOctet, specOctet,
      show noLeadZero [a, b] = decide (a.toNat ≠ 48) from rfl,
      digitsVal, digitVal, isDig,
      Bool.false_or, Bool.or_false, Bool.and_eq_true, Bool.and_true,
      List.all_cons, List.all_nil, List.isEmpty_cons, Bool.not_false,
      Bool.true_and, decide_eq_true_iff]
    simp only [List.length_cons, List.length_nil, pow_zero, pow_succ, mul_one,
      Nat.add_zero, one_mul]
    generalize a.toNat = x
    generalize b.toNat = y
    omega
  · simp only [isOctet,
      show octetA [a, b, c] =
        (decide (a.toNat = 50) && decide (b.toNat = 53) &&
          decide (48 ≤ c.toNat ∧ c.toNat ≤ 53)) from rfl,
      show octetB [a, b, c] =
        (decide (a.toNat = 50) && decide (48 ≤ b.toNat ∧ b.toNat ≤ 52) && isDig c) from rfl,
      show octetC [a, b, c] = (decide (a.toNat = 49) && isDig b && isDig c) from rfl,
      show octetD [a, b, c] = false from rfl,
      canonOctet, specOctet,
      show noLeadZero [a, b, c] = decide (a.toNat ≠ 48) from rfl,
      digitsVal, digitVal, isDig,
      Bool.or_false, Bool.or_eq_true, Bool.and_eq_true, Bool.and_true,
      List.all_cons, List.all_nil, List.isEmpty_cons, Bool.not_false,
      Bool.true_and, decide_eq_true_iff]
    simp only [List.length_cons, List.length_nil, pow_zero, pow_succ, mul_one,
      Nat.add_zero, one_mul]
    generalize a.toNat = x
    generalize b.toNat = y
    generalize c.toNat = z
    omega
  · have hA : octetA (a :: b :: c :: d :: rest) = false := rfl
    have hB : octetB (a :: b :: c :: d :: rest) = false := rfl
    have hC : octetC (a :: b :: c :: d :: rest) = false := rfl
    have hD : octetD (a :: b :: c :: d :: rest) = false := rfl
    have hlhs : isOctet (a :: b :: c :: d :: rest) = false := by
      simp [isOctet, hA, hB, hC, hD]
    have hrhs : canonOctet (a :: b :: c :: d :: rest) = false := by
      unfold canonOctet specOctet
      cases hall : (a :: b :: c :: d :: rest).all isDig with
      | false => simp [hall]
      | true =>
        cases hlead : noLeadZero (a :: b :: c :: d :: rest) with
        | false => simp [hlead]
        | true =>
          simp only [List.all_cons, Bool.and_eq_true] at hall
          have h1 : isDig a = true := hall.1
          have h2 : a.toNat ≠ 48 := by
            have := hlead
            unfold noLeadZero at this
            simpa using this
          rw [isDig, decide_eq_true_iff] at h1
          have hda : 1 ≤ digitVal a := by
            unfold digitVal
            omega
          have hlen : 3 ≤ (b :: c :: d :: rest).length := by simp
          have hpow : 1000 ≤ 10 ^ (b :: c :: d :: rest).length := by
            calc (1000 : Nat) = 10 ^ 3 := by norm_num
            _ ≤ 10 ^ (b :: c :: d :: rest).length :=
              Nat.pow_le_pow_right (by norm_num) hlen
          have hval2 : digitsVal (a :: b :: c :: d :: rest) =
              digitVal a * 10 ^ (b :: c :: d :: rest).length +
                digitsVal (b :: c :: d :: rest) := rfl
          have hbig : 1000 ≤ digitsVal (a :: b :: c :: d :: rest) := by
            rw [hval2]
            calc (1000 : Nat) = 1 * 1000 := by norm_num
            _ ≤ digitVal a * 10 ^ (b :: c :: d :: rest).length :=
              Nat.mul_le_mul hda hpow
            _ ≤ _ := Nat.le_add_right _ _
          have hv : decide (digitsVal (a :: b :: c :: d :: rest) ≤ 255) = false := by
            rw [decide_eq_false_iff_not]
            omega
          simp [hv]
    rw [hlhs, hrhs]

theorem takeWhile_append_of_all (q : Char → Bool) (xs ys : List Char)
    (h : ∀ c ∈ xs, q c = true) :
    (xs ++ ys).takeWhile q = xs ++ ys.takeWhile q := by
  induction xs with
  | nil => rfl
  | cons c tl ih =>
    have hc : q c = true := h c (by simp)
    simp only [List.cons_append, List.takeWhile_cons, hc, if_true]
    rw [ih (fun c2 hm => h c2 (by simp [hm]))]

theorem dropWhile_cons_head (q : Char → Bool) (s : List Char) (c : Char)
    (t : List Char) (h : s.dropWhile q = c :: t) : q c = false := by
  induction s with
  | nil => simp at h
  | cons c2 tl ih =>
    rw [List.dropWhile_cons] at h
    split at h
    · exact ih h
    · rcases h with ⟨rfl, rfl⟩
      rename_i hq
      simpa using hq

theorem splitByP_append_sep (p : Char → Bool) (a : List Char) (d : Char)
    (t : List Char) (ha : ∀ c ∈ a, p c = false) (hd : p d = true) :
    splitByP p (a ++ d :: t) = a :: splitByP p t := by
  induction a with
  | nil => simp [splitByP, hd]
  | cons c a2 ih =>
    have hc : p c = false := ha c (by simp)
    have ih2 := ih (fun c2 hm => ha c2 (by simp [hm]))
    simp [splitByP, hc, ih2]

/-- The four-repetition regex over `s + '.'` accepts exactly when `s` splits
at dots into `n` groups, every one of which matches the octet group. -/
theorem ipGroups_iff (m : Nat) : ∀ (s : List Char), s.length ≤ m → ∀ n,
    (ipGroups n (s ++ ['.']) = true ↔
      ((splitChar '.' s).length = n ∧ ∀ g ∈ splitChar '.' s, isOctet g = true)) := by
  induction m with
  | zero =>
    intro s hs n
    have hnil : s = [] := List.length_eq_zero.mp (Nat.le_zero.mp hs)
    subst hnil
    cases n with
    | zero =>
      simp [ipGroups, splitChar, splitByP]
    | succ k =>
      simp [ipGroups, splitChar, splitByP, List.takeWhile,
        show isOctet [] = false from rfl]
  | succ m ih =>
    intro s hs n
    by_cases hdot : '.' ∈ s
    · -- s = a ++ '.' :: t with a dot-free
      cases hd : s.dropWhile (fun c => c != '.') with
      | nil =>
        exfalso
        have hsplit := List.takeWhile_append_dropWhile
          (p := fun c => c != '.') (l := s)
        rw [hd, List.append_nil] at hsplit
        have : ('.' : Char) ∈ s.takeWhile (fun c => c != '.') := by
          rw [hsplit]
          exact hdot
        have hq := List.mem_takeWhile_imp this
        simp at hq
      | cons c t =>
        have hq : ((c != '.') : Bool) = false :=
          dropWhile_cons_head _ s c t hd
        have hc : c = '.' := by
          simpa using hq
        subst hc
        have hsplit := List.takeWhile_append_dropWhile
          (p := fun c => c != '.') (l := s)
        rw [hd] at hsplit
        have ha : ∀ c2 ∈ s.takeWhile (fun c => c != '.'), c2 ≠ '.' := by
          intro c2 hm
          have := List.mem_takeWhile_imp hm
          simpa using this
        set a := s.takeWhile (fun c => c != '.') with hadef
        have hlen : t.length ≤ m := by
          have : s.length = a.length + 1 + t.length := by
            rw [← hsplit]
            simp
            omega
          omega
        have hsplitChar : splitChar '.' s = a :: splitChar '.' t := by
          rw [← hsplit]
          unfold splitChar
          exact splitByP_append_sep _ a '.' t
            (fun c2 hm => beq_eq_false_iff_ne.mpr (ha c2 hm)) rfl
        have haug : s ++ ['.'] = a ++ '.' :: (t ++ ['.']) := by
          rw [← hsplit]
          simp
        cases n with
        | zero =>
          constructor
          · intro h
            rw [haug] at h
            simp only [ipGroups] at h
            rw [List.isEmpty_iff] at h
            exact absurd h (by simp)
          · rintro ⟨hl, _⟩
            rw [hsplitChar] at hl
            simp at hl
        | succ k =>
          have htw : (a ++ '.' :: (t ++ ['.'])).takeWhile (fun c => c != '.') = a := by
            rw [takeWhile_append_of_all _ a _
              (fun c2 hm => by simpa using ha c2 hm)]
            simp [List.takeWhile_cons]
          have hdrop : (a ++ '.' :: (t ++ ['.'])).drop a.length = '.' :: (t ++ ['.']) :=
            drop_len_append a _
          rw [haug]
          simp only [ipGroups, htw, hdrop]
          rw [hsplitChar]
          simp only [Bool.and_eq_true, List.length_cons, List.mem_cons]
          rw [ih t hlen k]
          constructor
          · rintro ⟨ho, hl, hall⟩
            refine ⟨by omega, ?_⟩
            intro g hg
            rcases hg with rfl | hg
            · exact ho
            · exact hall g hg
          · rintro ⟨hl, hall⟩
            refine ⟨hall a (Or.inl rfl), by omega, ?_⟩
            intro g hg
            exact hall g (Or.inr hg)
    · -- s is dot-free: exactly one group
      have ha : ∀ c2 ∈ s, (c2 != '.') = true := by
        intro c2 hm
        have : c2 ≠ '.' := fun hh => hdot (hh ▸ hm)
        simpa using this
      have htw : (s ++ ['.']).takeWhile (fun c => c != '.') = s := by
        rw [takeWhile_append_of_all _ s _ ha]
        simp [List.takeWhile_cons]
      have hsplitChar : splitChar '.' s = [s] := by
        unfold splitChar
        exact splitByP_of_all_not _ s
          (fun c2 hm => by
            have : c2 ≠ '.' := fun hh => hdot (hh ▸ hm)
            simpa using this)
      cases n with
      | zero =>
        constructor
        · intro h
          simp only [ipGroups] at h
          rw [List.isEmpty_iff] at h
          exact absurd h (by simp)
        · rintro ⟨hl, _⟩
          rw [hsplitChar] at hl
          simp at hl
      | succ k =>
        have hdrop : (s ++ ['.']).drop s.length = ['.'] := drop_len_append s _
        have hdrop2 : (s ++ ['.']).drop (s.length) = '.' :: ([] : List Char) := hdrop
        simp only [ipGroups, htw, hdrop2]
        rw [hsplitChar]
        cases k with
        | zero =>
          simp only [ipGroups, List.isEmpty_nil, Bool.and_true,
            List.length_singleton, List.mem_singleton]
          constructor
          · intro h
            exact ⟨trivial, fun g hg => hg ▸ h⟩
          · rintro ⟨-, hall⟩
            exact hall s rfl
        | succ k2 =>
          simp only [ipGroups, List.takeWhile_nil,
            show isOctet [] = false from rfl, Bool.false_and, Bool.and_false,
            List.length_singleton]
          constructor
          · intro h
            simp at h
          · rintro ⟨hl, _⟩
            omega

theorem classOf_st (k : String) (hk : k ∈ stNames) : classOf k = stClassOf k := by
  unfold classOf
  rw [if_pos hk]

theorem maskOf_st (k : String) (hk : k ∈ stNames) : maskOf k = stMaskOf k := by
  unfold maskOf
  rw [if_pos hk]

theorem classOf_comb (k : String) (hk : k ∉ stNames) : classOf k = combClassOf k := by
  unfold classOf
  rw [if_neg hk]

theorem maskOf_comb (k : String) (hk : k ∉ stNames) : maskOf k = combMaskOf k := by
  unfold maskOf
  rw [if_neg hk]

-- ----------- Claim theorems ------------------

/-- Claim C1, counterexample: the record `{"upi_id": "a@"}` is classified as
PII (found = true) yet the masked record is identical to the input — no
field's value differs, refuting "found=true implies at least one field
changed value". -/
theorem claim_C1_counterexample :
    (redact_obj [("upi_id", Value.vStr ('a' :: '@' :: []))]).2 = true ∧
      (redact_obj [("upi_id", Value.vStr ('a' :: '@' :: []))]).1 =
        [("upi_id", Value.vStr ('a' :: '@' :: []))] := by
  decide

/-- Claim C1, amended: if redact returns found = true then at least one field
is present, matches its classifier, and is overwritten in the output with its
masker's result — but that result may coincide with the original value (the
payment-handle masker can return its input unchanged), so no field need
change value. -/
theorem claim_C1_amended (js : Record) (out : Record)
    (h : redact_obj js = (out, true)) :
    ∃ k, hasKey js k = true ∧ classOf k (getV js k) = true ∧
      List.lookup k out = some (Value.vStr (maskOf k (pyStr (getV js k)))) := by
  have hout : (redact_obj js).1 = out := by rw [h]
  have hfound : (redact_obj js).2 = true := by rw [h]
  rw [redact_snd, Bool.or_eq_true] at hfound
  rcases hfound with hst | hcomb
  · rw [st_fst, Bool.or_eq_true, Bool.or_eq_true, Bool.or_eq_true] at hst
    rcases hst with ((hc | hc) | hc) | hc
    · have hc2 : (hasKey js "phone" && stClassOf "phone" (getV js "phone")) = true := by
        rw [show stClassOf "phone" = is_phone from rfl]
        exact hc
      obtain ⟨hlook, _⟩ := redact_st_masked js "phone" (by decide) hc2
      rw [Bool.and_eq_true] at hc2
      refine ⟨"phone", hc2.1, ?_, ?_⟩
      · rw [classOf_st _ (by decide)]
        exact hc2.2
      · rw [← hout, maskOf_st _ (by decide)]
        exact hlook
    · have hc2 : (hasKey js "aadhar" && stClassOf "aadhar" (getV js "aadhar")) = true := by
        rw [show stClassOf "aadhar" = is_aadhar from rfl]
        exact hc
      obtain ⟨hlook, _⟩ := redact_st_masked js "aadhar" (by decide) hc2
      rw [Bool.and_eq_true] at hc2
      refine ⟨"aadhar", hc2.1, ?_, ?_⟩
      · rw [classOf_st _ (by decide)]
        exact hc2.2
      · rw [← hout, maskOf_st _ (by decide)]
        exact hlook
    · have hc2 : (hasKey js "passport" && stClassOf "passport" (getV js "passport")) = true := by
        rw [show stClassOf "passport" = is_passport from rfl]
        exact hc
      obtain ⟨hlook, _⟩ := redact_st_masked js "passport" (by decide) hc2
      rw [Bool.and_eq_true] at hc2
      refine ⟨"passport", hc2.1, ?_, ?_⟩
      · rw [classOf_st _ (by decide)]
        exact hc2.2
      · rw [← hout, maskOf_st _ (by decide)]
        exact hlook
    · have hc2 : (hasKey js "upi_id" && stClassOf "upi_id" (getV js "upi_id")) = true := by
        rw [show stClassOf "upi_id" = is_upi from rfl]
        exact hc
      obtain ⟨hlook, _⟩ := redact_st_masked js "upi_id" (by decide) hc2
      rw [Bool.and_eq_true] at hc2
      refine ⟨"upi_id", hc2.1, ?_, ?_⟩
      · rw [classOf_st _ (by decide)]
        exact hc2.2
      · rw [← hout, maskOf_st _ (by decide)]
        exact hlook
  · have hlen : 2 ≤ (comb_keys js).length := (comb_fst_iff js).mp hcomb
    have hne : comb_keys js ≠ [] := by
      intro hh
      rw [hh] at hlen
      simp at hlen
    have hkmem : (comb_keys js).head hne ∈ comb_keys js := List.head_mem hne
    obtain ⟨hlook, _⟩ := redact_comb_masked js _ hkmem hlen
    have hc := (comb_keys_mem js _ hkmem).2
    have hnot : (comb_keys js).head hne ∉ stNames :=
      (by decide : ∀ x ∈ combNames, x ∉ stNames) _ (comb_keys_mem js _ hkmem).1
    rw [Bool.and_eq_true] at hc
    refine ⟨(comb_keys js).head hne, hc.1, ?_, ?_⟩
    · rw [classOf_comb _ hnot]
      exact hc.2
    · rw [← hout, maskOf_comb _ hnot]
      exact hlook

/-- Claim C1, witness for the amended theorem: on `{"phone":"9876543210"}`
redact returns found = true and the phone field carries its masker's
output. -/
theorem claim_C1_witness :
    ∃ k, hasKey [("phone", Value.vStr "9876543210".toList)] k = true ∧
      classOf k (getV [("phone", Value.vStr "9876543210".toList)] k) = true ∧
      List.lookup k [("phone", Value.vStr "98XXXXXX10".toList)] =
        some (Value.vStr (maskOf k
          (pyStr (getV [("phone", Value.vStr "9876543210".toList)] k)))) :=
  claim_C1_amended [("phone", Value.vStr "9876543210".toList)]
    [("phone", Value.vStr "98XXXXXX10".toList)] (by decide)

/-- Claim C2, counterexample: `"ab@"` contains `'@'`, so the payment-handle
classifier accepts it, but the masker returns it unchanged instead of the
claimed `"aXXX@"` (the regex needs a character after the `'@'`). -/
theorem claim_C2_counterexample :
    is_upi (Value.vStr ('a' :: 'b' :: '@' :: [])) = true ∧
      mask_upi ('a' :: 'b' :: '@' :: []) = 'a' :: 'b' :: '@' :: [] ∧
      mask_upi ('a' :: 'b' :: '@' :: []) ≠ 'a' :: 'X' :: 'X' :: 'X' :: '@' :: [] := by
  decide

/-- Claim C2, amended: on newline-free input, if some `'@'` at position ≥ 1
is followed by at least one character then the masker keeps the first
character, inserts `XXX`, and keeps everything from the last such `'@'`
onwards; if no `'@'` has both a character somewhere before it and one after
it, the value is returned unchanged. -/
theorem claim_C2_amended (cs a b : List Char) (c0 : Char) :
    (cs = c0 :: (a ++ '@' :: b) → b ≠ [] → '@' ∉ b.dropLast → '\n' ∉ cs →
        mask_upi cs = c0 :: 'X' :: 'X' :: 'X' :: '@' :: b)
    ∧ ('@' ∉ (cs.drop 1).dropLast → '\n' ∉ cs → mask_upi cs = cs) := by
  constructor
  · intro hcs hb hnb hnl
    subst hcs
    rw [mask_upi_no_newline _ hnl]
    exact maskUpiSeg_eq c0 a b hb hnb
  · intro hel hnl
    rw [mask_upi_no_newline _ hnl]
    exact maskUpiSeg_id cs hel

/-- Claim C2, witness: `"ua@pay"` masks to `"uXXX@pay"`, and `"ab@"` is
returned unchanged. -/
theorem claim_C2_witness :
    mask_upi ('u' :: 'a' :: '@' :: 'p' :: 'a' :: 'y' :: []) =
        'u' :: 'X' :: 'X' :: 'X' :: '@' :: 'p' :: 'a' :: 'y' :: [] ∧
      mask_upi ('a' :: 'b' :: '@' :: []) = 'a' :: 'b' :: '@' :: [] :=
  ⟨(claim_C2_amended ('u' :: 'a' :: '@' :: 'p' :: 'a' :: 'y' :: [])
        ['a'] ['p', 'a', 'y'] 'u').1 rfl (by decide) (by decide) (by decide),
   (claim_C2_amended ('a' :: 'b' :: '@' :: []) [] [] 'x').2 (by decide) (by decide)⟩

/-- Claim C3, counterexample: in `{"phone":"9876543210",
"email":"john@test.com"}` exactly one combinatorial field (email) is present
and matches, yet redact returns found = true (the phone is standalone PII),
refuting "exactly one combinatorial match implies found = false". -/
theorem claim_C3_counterexample :
    comb_keys [("phone", Value.vStr "9876543210".toList),
        ("email", Value.vStr "john@test.com".toList)] = ["email"] ∧
      (redact_obj [("phone", Value.vStr "9876543210".toList),
        ("email", Value.vStr "john@test.com".toList)]).2 = true := by
  decide

/-- Claim C3, amended: if exactly one combinatorial field matches, the
combinatorial pass reports nothing, no combinatorial field is modified, and
found equals the standalone pass's flag (so found = false when no standalone
field also matches); if two or more match, every matching combinatorial field
is overwritten with its masked value and found = true. -/
theorem claim_C3_amended (js : Record) :
    ((comb_keys js).length = 1 →
      detect_combinatorial_pii js = (false, []) ∧
      (∀ k ∈ combNames, List.lookup k (redact_obj js).1 = List.lookup k js) ∧
      (redact_obj js).2 = (detect_standalone_pii js).1)
    ∧ (2 ≤ (comb_keys js).length →
      (redact_obj js).2 = true ∧
      ∀ k ∈ comb_keys js,
        List.lookup k (redact_obj js).1 =
          some (Value.vStr (combMaskOf k (pyStr (getV js k))))) := by
  constructor
  · intro h1
    have hcf : detect_combinatorial_pii js = (false, []) := comb_eq_of_lt js (by omega)
    refine ⟨hcf, ?_, ?_⟩
    · intro k hk
      apply redact_lookup_unchanged
      · exact st_lookup_none js k ((by decide : ∀ x ∈ combNames, x ∉ stNames) k hk)
      · rw [hcf]
        simp
    · rw [redact_snd, hcf]
      simp
  · intro h2
    refine ⟨?_, fun k hk => (redact_comb_masked js k hk h2).1⟩
    rw [redact_snd, (comb_fst_iff js).mpr h2]
    simp

/-- Claim C3, witness: with phone+email only the found flag equals the
standalone flag; with email+name (two combinatorial matches) found = true. -/
theorem claim_C3_witness :
    (redact_obj [("phone", Value.vStr "9876543210".toList),
        ("email", Value.vStr "john@test.com".toList)]).2 =
      (detect_standalone_pii [("phone", Value.vStr "9876543210".toList),
        ("email", Value.vStr "john@test.com".toList)]).1 ∧
    (redact_obj [("email", Value.vStr "john@test.com".toList),
        ("name", Value.vStr "John Doe".toList)]).2 = true :=
  ⟨((claim_C3_amended [("phone", Value.vStr "9876543210".toList),
      ("email", Value.vStr "john@test.com".toList)]).1 (by decide)).2.2,
   ((claim_C3_amended [("email", Value.vStr "john@test.com".toList),
      ("name", Value.vStr "John Doe".toList)]).2 (by decide)).1⟩

/-- Claim C4: a standalone field (phone, aadhar, passport, upi_id) that is
present and matches its classifier is always overwritten with its masked
value in the output and forces found = true, for every record, independently
of all other fields and of the combinatorial pass. -/
theorem claim_C4 (js : Record) (k : String) (hk : k ∈ stNames)
    (hc : (hasKey js k && stClassOf k (getV js k)) = true) :
    List.lookup k (redact_obj js).1 =
        some (Value.vStr (stMaskOf k (pyStr (getV js k)))) ∧
      (redact_obj js).2 = true :=
  redact_st_masked js k hk hc

/-- Claim C4, witness: `{"phone":"9876543210"}` alone yields masked phone
`"98XXXXXX10"` and found = true. -/
theorem claim_C4_witness :
    List.lookup "phone"
        (redact_obj [("phone", Value.vStr "9876543210".toList)]).1 =
      some (Value.vStr "98XXXXXX10".toList) ∧
    (redact_obj [("phone", Value.vStr "9876543210".toList)]).2 = true := by
  have h := claim_C4 [("phone", Value.vStr "9876543210".toList)] "phone"
    (by decide) (by decide)
  refine ⟨?_, h.2⟩
  rw [h.1]
  decide

/-- Claim C5: only the nine fixed field names are examined — a value stored
under any other field name is returned unchanged by redact whatever its
content, and the found flag is unchanged by discarding all fields outside the
nine names. -/
theorem claim_C5 (js : Record) :
    (∀ k, k ∉ nineNames → List.lookup k (redact_obj js).1 = List.lookup k js)
    ∧ (redact_obj (js.filter keepNine)).2 = (redact_obj js).2 := by
  constructor
  · intro k hk
    have hst : k ∉ stNames := fun hh => hk (by simp [nineNames, hh])
    have hcb : k ∉ combNames := fun hh => hk (by simp [nineNames, hh])
    exact redact_lookup_unchanged js k (st_lookup_none js k hst)
      (comb_lookup_none js k hcb)
  · exact redact_snd_filter_nine js

/-- Claim C5, witness: a PII-looking value under the unexamined key
`"other"` passes through unchanged even though a phone is masked. -/
theorem claim_C5_witness :
    List.lookup "other"
        (redact_obj [("other", Value.vStr "9876543210".toList),
          ("phone", Value.vStr "9876543210".toList)]).1 =
      List.lookup "other" [("other", Value.vStr "9876543210".toList),
        ("phone", Value.vStr "9876543210".toList)] :=
  (claim_C5 [("other", Value.vStr "9876543210".toList),
    ("phone", Value.vStr "9876543210".toList)]).1 "other" (by decide)

/-- Claim C6, counterexample: `"01.2.3.4"` consists of exactly 4
dot-separated non-empty all-digit groups each of value at most 255, yet the
classifier rejects it (the octet regex admits no leading zero), refuting the
claimed "if and only if". -/
theorem claim_C6_counterexample :
    specIsIp "01.2.3.4".toList = true ∧
      is_ip (Value.vStr "01.2.3.4".toList) = false := by
  decide

/-- Claim C6, amended: the ip_address classifier accepts a text value exactly
when it splits at dots into exactly 4 groups, each of which is the canonical
decimal form of an integer 0–255 (non-empty, digits only, value ≤ 255, and no
leading zero in a multi-digit group); in particular no 5-group string, no
empty group, no trailing dot and not `"999.999.999.999"`. -/
theorem claim_C6_amended (s : List Char) :
    is_ip (Value.vStr s) = true ↔
      ((splitChar '.' s).length = 4 ∧
        ∀ g ∈ splitChar '.' s, canonOctet g = true) := by
  rw [show is_ip (Value.vStr s) = ipGroups 4 (s ++ ['.']) from rfl]
  rw [ipGroups_iff s.length s (le_refl _) 4]
  constructor
  · rintro ⟨hl, hall⟩
    refine ⟨hl, fun g hg => ?_⟩
    rw [← isOctet_canon]
    exact hall g hg
  · rintro ⟨hl, hall⟩
    refine ⟨hl, fun g hg => ?_⟩
    rw [isOctet_canon]
    exact hall g hg

/-- Claim C7: the masked record returned by redact has exactly the input's
keys — in fact the same key list, in order; nothing is added or dropped. -/
theorem claim_C7 (js : Record) :
    (redact_obj js).1.map Prod.fst = js.map Prod.fst :=
  redact_keys js

/-- Claim C8: a field that neither pass masked appears in the output with its
original value (matched-but-alone combinatorial fields included). -/
theorem claim_C8 (js : Record) (k : String)
    (h1 : List.lookup k (detect_standalone_pii js).2 = none)
    (h2 : List.lookup k (detect_combinatorial_pii js).2 = none) :
    List.lookup k (redact_obj js).1 = List.lookup k js :=
  redact_lookup_unchanged js k h1 h2

/-- Claim C8, witness: a lone matching email is selected by neither pass and
reads back unchanged. -/
theorem claim_C8_witness :
    List.lookup "email"
        (redact_obj [("email", Value.vStr "john@test.com".toList)]).1 =
      List.lookup "email" [("email", Value.vStr "john@test.com".toList)] :=
  claim_C8 [("email", Value.vStr "john@test.com".toList)] "email"
    (by decide) (by decide)

/-- Claim C9: every value the travel-document classifier accepts has length
exactly 8, so the masker's `[REDACTED_PASSPORT]` sentinel branch is
unreachable under that precondition and the masker returns the first
character followed by seven X's. -/
theorem claim_C9 (s : List Char) (h : is_passport (Value.vStr s) = true) :
    s.length = 8 ∧ mask_passport s = s.take 1 ++ "XXXXXXX".toList ∧
      mask_passport s ≠ "[REDACTED_PASSPORT]".toList := by
  have hlen : s.length = 8 := by
    cases s with
    | nil => simp [is_passport] at h
    | cons c tl =>
      rw [show is_passport (Value.vStr (c :: tl)) =
        (decide (65 ≤ c.toNat ∧ c.toNat ≤ 90) && decide (tl.length = 7) &&
          tl.all isDig) from rfl] at h
      rw [Bool.and_eq_true, Bool.and_eq_true] at h
      have := h.1.2
      rw [decide_eq_true_iff] at this
      simp [this]
  refine ⟨hlen, ?_, ?_⟩
  · unfold mask_passport
    rw [if_pos hlen]
  · unfold mask_passport
    rw [if_pos hlen]
    intro hh
    have hlh := congrArg List.length hh
    rw [List.length_append, List.length_take, hlen] at hlh
    simp at hlh

/-- Claim C9, witness: `"A1234567"` is accepted, has length 8, and masks to
`"AXXXXXXX"`. -/
theorem claim_C9_witness :
    "A1234567".toList.length = 8 ∧
      mask_passport "A1234567".toList =
        "A1234567".toList.take 1 ++ "XXXXXXX".toList ∧
      mask_passport "A1234567".toList ≠ "[REDACTED_PASSPORT]".toList :=
  claim_C9 "A1234567".toList (by decide)

/-- Claim C10: a non-text value (number or null) is rejected by all nine
field classifiers, without any failure path. -/
theorem claim_C10 (v : Value) (h : ∀ s : List Char, v ≠ Value.vStr s) :
    is_phone v = false ∧ is_aadhar v = false ∧ is_passport v = false ∧
      is_upi v = false ∧ is_email v = false ∧ is_address v = false ∧
      is_ip v = false ∧ is_device_id v = false ∧ is_name v = false := by
  cases v with
  | vStr s => exact absurd rfl (h s)
  | vNum n => exact ⟨rfl, rfl, rfl, rfl, rfl, rfl, rfl, rfl, rfl⟩
  | vNull => exact ⟨rfl, rfl, rfl, rfl, rfl, rfl, rfl, rfl, rfl⟩

/-- Claim C10, witness: the number 5 matches no classifier. -/
theorem claim_C10_witness :
    is_phone (Value.vNum 5) = false ∧ is_aadhar (Value.vNum 5) = false ∧
      is_passport (Value.vNum 5) = false ∧ is_upi (Value.vNum 5) = false ∧
      is_email (Value.vNum 5) = false ∧ is_address (Value.vNum 5) = false ∧
      is_ip (Value.vNum 5) = false ∧ is_device_id (Value.vNum 5) = false ∧
      is_name (Value.vNum 5) = false :=
  claim_C10 (Value.vNum 5) (fun _ hh => Value.noConfusion hh)

end Detector
